import Mathlib

/-!
# Verification of the spideroak_web_crawler core

A shallow embedding, in Lean 4, of the crawler service's core
(`src/service/src/parser.rs`, `crawler.rs`, `url_worker.rs`, `error.rs`,
`base_url.rs`), together with theorems settling the specification claims
about it.

Conventions of the embedding:
* `url::Url` values are modelled by the structure `Url` below, restricted to
  hosted special-scheme URLs (scheme, host, path, optional query, optional
  fragment), which is the shape every URL handled by the crawler has.  Paths
  are kept in the already-parsed, percent-encoded form that `Url::path()`
  returns, so `set_path` is modelled on such strings.
* The `HashMap`/`HashSet` registries are modelled by association lists with
  insert-or-replace update; `HashSet` child sets are lists with
  insert-if-absent.
* Wall-clock times are seconds as `Int`; `chrono::Duration::num_minutes`
  truncates towards zero, which is `Int.tdiv _ 60`.
* Rust panics (`%` by zero, `unwrap` failure, the explicit tree `panic!`)
  are modelled by a distinguished result (`Option.none` or a dedicated
  constructor), never by silently returning a value.
-/

/-- Model of a parsed `url::Url` restricted to hosted URLs: scheme, host,
path (in parsed form, e.g. `"/a/b"`), optional query, optional fragment. -/
structure Url where
  scheme : String
  host : String
  path : String
  query : Option String
  fragment : Option String
deriving DecidableEq, Repr

/-- Path-level model of `url::Url::set_path` for hosted special-scheme URLs
on already-parsed path strings: the empty path serializes as `"/"`, and a
path not starting with `'/'` gets one prepended. -/
def setPathL (p : List Char) : List Char :=
  if p = [] then ['/']
  else if p.head? = some '/' then p
  else '/' :: p

/-- `set_path` lifted to `String`. -/
def setPath (p : String) : String := String.mk (setPathL p.data)

/-- Path transform done by `strip_url_to_domain_and_path`: drop one trailing
slash (`String::pop`, then `set_path`) if the path ends with `'/'`. -/
def stripTrailingSlashL (p : List Char) : List Char :=
  if p.getLast? = some '/' then setPathL p.dropLast else p

/-- Model of serialization (`Url::as_str` / `Url::to_string`). -/
def urlToString (u : Url) : String :=
  u.scheme ++ String.mk [':', '/', '/'] ++ u.host ++ u.path
    ++ (match u.query with
        | some q => String.mk ['?'] ++ q
        | none => String.mk [])
    ++ (match u.fragment with
        | some f => String.mk ['#'] ++ f
        | none => String.mk [])

/-- `crawler.rs`: `strip_url_to_domain` — clear path, query and fragment. -/
def strip_url_to_domain (u : Url) : Url :=
  { u with path := setPath (String.mk []), query := none, fragment := none }

/-- `crawler.rs`: `strip_url_to_domain_and_path` — clear query and fragment,
and drop one trailing slash from the path if present. -/
def strip_url_to_domain_and_path (u : Url) : Url :=
  { u with path := String.mk (stripTrailingSlashL u.path.data),
           query := none, fragment := none }

/-! ## The anchor extractor (`parser.rs`, `AnchorHrefIterator`)

The iterator's fields other than `index`, `max_index` and
`anchor_tag_counter` form the scanning state `ScanState`.  `scanStep` is the
body of the `while let Some(c)` loop for one character: it returns the
updated state together with an event — `some hrefOpt` exactly when the
character closes an `<a>` element that the scanner was inside
(`hrefOpt` being the `pending_href` taken at that moment), `none` otherwise.
In the source, the counter/yield logic runs only on events carrying an
href. -/

structure ScanState where
  in_tag : Bool
  in_anchor_tag_text : Bool
  has_tag_name : Bool
  tag_name : String
  current_attr : String
  current_value : String
  is_in_href : Bool
  is_in_value : Bool
  quote_char : Option Char
  pending_href : Option String
deriving DecidableEq, Repr

/-- The initial scanner state (`AnchorHrefIterator::new`). -/
def initScanState : ScanState :=
  { in_tag := false, in_anchor_tag_text := false, has_tag_name := false,
    tag_name := String.mk [], current_attr := String.mk [],
    current_value := String.mk [], is_in_href := false, is_in_value := false,
    quote_char := none, pending_href := none }

/-- `str::trim_start_matches('/')`: drop all leading slashes. -/
def trimLeadingSlashes (s : String) : String :=
  String.mk (s.data.dropWhile (fun c => c = '/'))

/-- One step of the scanner on character `c` (the body of the loop in
`AnchorHrefIterator::next`). -/
def scanStep (s : ScanState) (c : Char) : ScanState × Option (Option String) :=
  if c = '<' then
    ({ s with in_tag := true, tag_name := String.mk [],
              has_tag_name := false, current_attr := String.mk [],
              current_value := String.mk [], is_in_href := false,
              is_in_value := false, quote_char := none }, none)
  else if c = '>' then
    if s.in_tag = false then (s, none)
    else
      let s := { s with in_tag := false }
      if s.tag_name = String.mk ['a'] then
        ({ s with in_anchor_tag_text := true }, none)
      else if s.tag_name.data.head? = some '/' then
        if trimLeadingSlashes s.tag_name = String.mk ['a'] ∧
            s.in_anchor_tag_text = true then
          ({ s with in_anchor_tag_text := false, pending_href := none },
            some s.pending_href)
        else (s, none)
      else (s, none)
  else
    if s.in_tag = false then (s, none)
    else if s.has_tag_name = false then
      if c.isWhitespace then
        if s.tag_name.data.length > 0 then
          ({ s with has_tag_name := true }, none)
        else (s, none)
      else ({ s with tag_name := s.tag_name.push c }, none)
    else if s.tag_name ≠ String.mk ['a'] then (s, none)
    else if s.is_in_value = false then
      if c.isWhitespace then (s, none)
      else if c = '=' then
        let s := { s with is_in_value := true, current_value := String.mk [],
                          quote_char := none }
        if s.current_attr = String.mk ['h', 'r', 'e', 'f'] then
          ({ s with is_in_href := true }, none)
        else (s, none)
      else if c ≠ '/' then
        ({ s with current_attr := s.current_attr.push c }, none)
      else (s, none)
    else
      match s.quote_char with
      | none =>
        if c = '"' ∨ c = '\'' then ({ s with quote_char := some c }, none)
        else (s, none)
      | some q =>
        if c = q then
          let s :=
            if s.is_in_href = true then
              { s with pending_href := some s.current_value }
            else s
          ({ s with is_in_value := false, is_in_href := false,
                    current_attr := String.mk [],
                    current_value := String.mk [], quote_char := none },
            none)
        else ({ s with current_value := s.current_value.push c }, none)

/-- Collecting run of the iterator from a given scanner state and counter
value: `none` models the `%`-by-zero panic when `max_index = 0` and a closed
anchor with an href is reached. -/
def runScan (index max_index : Nat) :
    List Char → ScanState → Nat → Option (List String)
  | [], _, _ => some []
  | c :: cs, s, k =>
    match scanStep s c with
    | (s', some (some href)) =>
      if max_index = 0 then none
      else if k % max_index = index then
        (runScan index max_index cs s' (k + 1)).map (fun l => href :: l)
      else runScan index max_index cs s' (k + 1)
    | (s', some none) => runScan index max_index cs s' k
    | (s', none) => runScan index max_index cs s' k

/-- `parser.rs`: `find_anchors(html, index, max_index).collect()`, as an
`Option`: `none` is the division-by-zero panic. -/
def find_anchors (html : String) (index max_index : Nat) :
    Option (List String) :=
  runScan index max_index html.data initScanState 0

/-- The hrefs of all fully-closed `<a>` elements that carry an href, in
scan order (the scanner's event stream, ignoring partitioning). -/
def scanEvents : List Char → ScanState → List String
  | [], _ => []
  | c :: cs, s =>
    match scanStep s c with
    | (s', some (some href)) => href :: scanEvents cs s'
    | (s', some none) => scanEvents cs s'
    | (s', none) => scanEvents cs s'

/-- The href events of a whole page text. -/
def hrefEvents (html : String) : List String :=
  scanEvents html.data initScanState

/-- Keep the events at counter positions congruent to `index` mod
`max_index`, starting the counter at `k`. -/
def pickFrom (index max_index k : Nat) : List String → List String
  | [] => []
  | h :: t =>
    if k % max_index = index then h :: pickFrom index max_index (k + 1) t
    else pickFrom index max_index (k + 1) t

/-- The `(ordinal, href)` pairs of the anchors that partition `index` of
`max_index` claims, out of the page's href event stream. -/
def claimedAnchors (index max_index : Nat) (events : List String) :
    List (Nat × String) :=
  (List.enumFrom 0 events).filter (fun p => p.1 % max_index == index)

/-- Modelled from the spec's words for claim C1: the same scanner, except
that "the ordinal counter increments once per closed `<a>` regardless of
whether it has an href" — i.e. the counter also advances on events of closed
anchors that carry no pending href. For comparison with `runScan`. -/
def runScanCountAll (index max_index : Nat) :
    List Char → ScanState → Nat → Option (List String)
  | [], _, _ => some []
  | c :: cs, s, k =>
    match scanStep s c with
    | (s', some (some href)) =>
      if max_index = 0 then none
      else if k % max_index = index then
        (runScanCountAll index max_index cs s' (k + 1)).map
          (fun l => href :: l)
      else runScanCountAll index max_index cs s' (k + 1)
    | (s', some none) => runScanCountAll index max_index cs s' (k + 1)
    | (s', none) => runScanCountAll index max_index cs s' k

/-- Modelled from the spec's words for claim C1: `find_anchors` as it would
behave if the ordinal position of an anchor counted all closed anchors
before it, href-less ones included. -/
def find_anchors_count_all (html : String) (index max_index : Nat) :
    Option (List String) :=
  runScanCountAll index max_index html.data initScanState 0

/-- The collected hrefs of one partition (empty for the fault case, which
cannot occur for `max_index ≥ 1`). -/
def anchorsList (html : String) (index max_index : Nat) : List String :=
  (find_anchors html index max_index).getD []

/-! ## Error taxonomy (`error.rs`) -/

/-- `error.rs`: `CrawlerError`. `CannotParseLinkUrl`'s `url::ParseError`
payload is not modelled. -/
inductive CrawlerError where
  | ReceivedNoCommandFromChannel
  | FailedToResolveRelativeUrl (url : String)
  | LinkUrlDoesNotMatchBaseUrl (url baseUrl : String)
  | CannotParseLinkUrl
  | BaseUrlHasStoppedCrawling (url baseUrl : String)
  | ParentUrlWorkerNotFound (url : String)
  | BaseUrlNotFound (url : String)
deriving DecidableEq, Repr

/-- `error.rs`: `CrawlerError::should_display_error`. -/
def CrawlerError.should_display_error : CrawlerError → Bool
  | CrawlerError.LinkUrlDoesNotMatchBaseUrl _ _ => false
  | CrawlerError.BaseUrlHasStoppedCrawling _ _ => false
  | _ => true

/-- `error.rs`: `CrawlerError::should_display_backtrace`. -/
def CrawlerError.should_display_backtrace : CrawlerError → Bool
  | CrawlerError.BaseUrlHasStoppedCrawling _ _ => false
  | _ => true

/-- `error.rs`: `CrawlerError::print` — prints only when
`should_display_error` allows it.  The result is the list of errors that
reach the operator's console (empty or singleton). -/
def CrawlerError.printed (e : CrawlerError) : List CrawlerError :=
  if e.should_display_error then [e] else []

/-! ## Registries (`crawler.rs`, `Crawler`)

The three `Arc<RwLock<HashMap>>` registries are modelled by association
lists; `HashSet<Url>` child sets by lists with insert-if-absent. -/

/-- `HashMap::get` on an association list. -/
def lookupA {β : Type} (m : List (Url × β)) (k : Url) : Option β :=
  (m.find? (fun p => p.1 == k)).map Prod.snd

/-- `HashMap::insert`: replace the entry if the key is present, else append. -/
def insertA {β : Type} : List (Url × β) → Url → β → List (Url × β)
  | [], k, v => [(k, v)]
  | p :: t, k, v => if p.1 = k then (k, v) :: t else p :: insertA t k v

/-- `HashSet::insert` on a child set. -/
def insertOnce (l : List Url) (u : Url) : List Url :=
  if u ∈ l then l else l ++ [u]

/-- `base_url.rs`: a `BaseUrl` is just its `crawling` flag. -/
def BaseUrl := Bool

/-- `url_worker.rs`: the mutable state of a `UrlWorker` — its optional
last-fetch timestamp (seconds). -/
structure UrlWorkerState where
  last_access_timestamp : Option Int
deriving DecidableEq, Repr

/-- The `Crawler`'s three registries. -/
structure CrawlerState where
  base_urls : List (Url × Bool)
  url_workers : List (Url × UrlWorkerState)
  url_parents : List (Url × List Url)
deriving DecidableEq, Repr

/-- `Crawler::new`. -/
def crawlerNew : CrawlerState :=
  { base_urls := [], url_workers := [], url_parents := [] }

/-- `Crawler::has_worker`. -/
def has_worker (s : CrawlerState) (url : Url) : Bool :=
  (lookupA s.url_workers url).isSome

/-- `Crawler::base_url_is_crawling`: absent domains count as not
crawling. -/
def base_url_is_crawling (s : CrawlerState) (url : Url) : Bool :=
  match lookupA s.base_urls (strip_url_to_domain url) with
  | some crawling => crawling
  | none => false

/-- `Crawler::base_url_start_crawling`: create the `BaseUrl` if absent, set
its flag, and register the domain root in the tree if absent. -/
def base_url_start_crawling (s : CrawlerState) (url : Url) : CrawlerState :=
  let base_url := strip_url_to_domain url
  let m1 := if (lookupA s.base_urls base_url).isSome then s.base_urls
            else insertA s.base_urls base_url false
  let m2 := insertA m1 base_url true
  let t := if (lookupA s.url_parents base_url).isSome then s.url_parents
           else insertA s.url_parents base_url []
  { s with base_urls := m2, url_parents := t }

/-- `Crawler::base_url_stop_crawling`: clear the flag if the domain is
registered; a warn-and-return no-op otherwise. -/
def base_url_stop_crawling (s : CrawlerState) (url : Url) : CrawlerState :=
  let base_url := strip_url_to_domain url
  if (lookupA s.base_urls base_url).isSome = false then s
  else { s with base_urls := insertA s.base_urls base_url false }

/-- `Crawler::handle_command_stop` after the URL parse: normalize to the
domain-only form, deactivate, return `Ok` (`true`). -/
def handle_command_stop (s : CrawlerState) (url : Url) : CrawlerState × Bool :=
  let url := strip_url_to_domain url
  (base_url_stop_crawling s url, true)

/-- `Crawler::create_worker`: register the URL under its parent (the
referring job if `prev_url_opt` is `Some`, else the domain root unless the
URL is itself the domain-only URL), then create the worker and ensure the
URL has a tree entry.  On error nothing is mutated. -/
def create_worker (s : CrawlerState) (prev_url_opt : Option Url)
    (url : Url) : Except CrawlerError CrawlerState :=
  let step1 : Except CrawlerError CrawlerState :=
    match prev_url_opt with
    | some prev_url =>
      match lookupA s.url_parents prev_url with
      | some children =>
        Except.ok
          { s with url_parents :=
              insertA s.url_parents prev_url (insertOnce children url) }
      | none =>
        Except.error
          (CrawlerError.ParentUrlWorkerNotFound (urlToString prev_url))
    | none =>
      let base_url := strip_url_to_domain url
      if urlToString url ≠ urlToString base_url then
        match lookupA s.url_parents base_url with
        | some children =>
          Except.ok
            { s with url_parents :=
                insertA s.url_parents base_url (insertOnce children url) }
        | none =>
          Except.error (CrawlerError.BaseUrlNotFound (urlToString url))
      else Except.ok s
  match step1 with
  | Except.error e => Except.error e
  | Except.ok s1 =>
    let s2 :=
      { s1 with url_workers :=
          insertA s1.url_workers url (UrlWorkerState.mk none) }
    if (lookupA s2.url_parents url).isSome then Except.ok s2
    else Except.ok { s2 with url_parents := insertA s2.url_parents url [] }

/-- `url_worker.rs`: `URL_MAX_STALE_MINUTES`. -/
def URL_MAX_STALE_MINUTES : Int := 1

/-- `url_worker.rs`: `PARSER_WORKER_COUNT`. -/
def PARSER_WORKER_COUNT : Nat := 4

/-- `chrono::Duration::num_minutes` on a duration in seconds: whole
minutes, truncated towards zero. -/
def numMinutes (seconds : Int) : Int := Int.tdiv seconds 60

/-- The fetch-and-dispatch part of `UrlWorker::start`: the fetch result is
an oracle argument (`none` = network failure).  Returns the new worker
state, whether a fetch was performed, and whether the call succeeded.  On
success the timestamp is set to the post-fetch time `fetchedAt`; on failure
it is left unchanged. -/
def url_worker_fetch (w : UrlWorkerState) (fetchedAt : Int)
    (fetchResult : Option String) : UrlWorkerState × Bool × Bool :=
  match fetchResult with
  | none => (w, true, false)
  | some _document => (UrlWorkerState.mk (some fetchedAt), true, true)

/-- `UrlWorker::start`: if a last-fetch timestamp exists and fewer than
`URL_MAX_STALE_MINUTES` whole minutes have elapsed, return immediately with
no fetch; otherwise fetch (and dispatch). -/
def url_worker_start (w : UrlWorkerState) (now fetchedAt : Int)
    (fetchResult : Option String) : UrlWorkerState × Bool × Bool :=
  match w.last_access_timestamp with
  | some timestamp =>
    if numMinutes (now - timestamp) < URL_MAX_STALE_MINUTES then
      (w, false, true)
    else url_worker_fetch w fetchedAt fetchResult
  | none => url_worker_fetch w fetchedAt fetchResult

/-- An error propagated out of `Crawler::start_job`: a `CrawlerError` from
worker creation, or a `reqwest` fetch failure. -/
inductive StartJobError where
  | crawler (e : CrawlerError)
  | fetchFailed
deriving DecidableEq, Repr

/-- `Crawler::start_job`.  Returns `none` for the `unwrap` panic
(unreachable: the worker was just created or found).  Otherwise returns the
new state, the call's result, the errors printed directly to the operator's
console during the call, and whether a network fetch was performed. -/
def start_job (s : CrawlerState) (prev_url_opt : Option Url) (url0 : Url)
    (now fetchedAt : Int) (fetchResult : Option String) :
    Option (CrawlerState × Except StartJobError Unit ×
      List CrawlerError × Bool) :=
  let url := strip_url_to_domain_and_path url0
  if base_url_is_crawling s url = false then
    some (s, Except.ok (),
      [CrawlerError.BaseUrlHasStoppedCrawling url.path
        (urlToString (strip_url_to_domain url))], false)
  else
    let created : Except CrawlerError CrawlerState :=
      if has_worker s url then Except.ok s
      else create_worker s prev_url_opt url
    match created with
    | Except.error e =>
      some (s, Except.error (StartJobError.crawler e), [], false)
    | Except.ok s1 =>
      match lookupA s1.url_workers url with
      | none => none
      | some w =>
        let r := url_worker_start w now fetchedAt fetchResult
        some ({ s1 with url_workers := insertA s1.url_workers url r.1 },
          if r.2.2 then Except.ok ()
          else Except.error StartJobError.fetchFailed,
          [], r.2.1)

/-- Equality of `Except` results is decidable componentwise. -/
instance {e a : Type} [DecidableEq e] [DecidableEq a] :
    DecidableEq (Except e a) := fun x y =>
  match x, y with
  | Except.ok v, Except.ok w =>
    if h : v = w then isTrue (by rw [h])
    else isFalse (by intro hc; cases hc; exact h rfl)
  | Except.error v, Except.error w =>
    if h : v = w then isTrue (by rw [h])
    else isFalse (by intro hc; cases hc; exact h rfl)
  | Except.ok _, Except.error _ => isFalse (by intro hc; cases hc)
  | Except.error _, Except.ok _ => isFalse (by intro hc; cases hc)

/-! ## Link resolution (`url_worker.rs`) -/

/-- The outcome of `Url::parse` on an href string, as an oracle for the
external `url` crate: success, one of the four "relative" errors that
trigger a join against the page URL (`RelativeUrlWithoutBase`,
`RelativeUrlWithCannotBeABaseBase`, `EmptyHost`,
`SetHostOnCannotBeABaseUrl`), or any other parse error. -/
inductive ParseOutcome where
  | ok (u : Url)
  | errRelative
  | errOther
deriving DecidableEq, Repr

/-- A discovered href together with the `url` crate's oracle outcomes for
it: the result of `Url::parse(href)` and, when attempted, of
`previous_url.join(href)` (`none` = join failed). -/
structure Link where
  href : String
  parsed : ParseOutcome
  joined : Option Url
deriving DecidableEq, Repr

/-- `url_worker.rs`: `have_same_base` — exact scheme and host equality. -/
def have_same_base (url1 url2 : Url) : Bool :=
  url1.scheme == url2.scheme && url1.host == url2.host

/-- The URL a link resolves to, if any: the parsed absolute URL, or the
join result for relative hrefs. -/
def linkResolved (link : Link) : Option Url :=
  match link.parsed with
  | ParseOutcome.ok u => some u
  | ParseOutcome.errRelative => link.joined
  | ParseOutcome.errOther => none

/-- `UrlWorker::parser_worker_handle_link`. -/
def parser_worker_handle_link (previous_url : Url) (link : Link) :
    Except CrawlerError Url :=
  match link.parsed with
  | ParseOutcome.ok link_url =>
    if have_same_base previous_url link_url = false then
      Except.error (CrawlerError.LinkUrlDoesNotMatchBaseUrl
        (urlToString previous_url) (urlToString link_url))
    else Except.ok link_url
  | ParseOutcome.errRelative =>
    match link.joined with
    | some resolved_url =>
      if have_same_base previous_url resolved_url = false then
        Except.error (CrawlerError.LinkUrlDoesNotMatchBaseUrl
          (urlToString previous_url) (urlToString resolved_url))
      else Except.ok resolved_url
    | none =>
      Except.error (CrawlerError.FailedToResolveRelativeUrl link.href)
  | ParseOutcome.errOther => Except.error CrawlerError.CannotParseLinkUrl

/-- The loop body of `UrlWorker::parser_worker` over one partition's links:
the URLs for which a recursive `start_job(Some(previous_url), url)` task is
spawned.  An `Err` from `parser_worker_handle_link` is printed per policy
and the loop continues. -/
def parser_worker_spawns (previous_url : Url) (links : List Link) :
    List Url :=
  links.filterMap (fun link =>
    match parser_worker_handle_link previous_url link with
    | Except.ok link_url => some link_url
    | Except.error _ => none)

/-- The errors of a partition's loop that reach the operator's console
(`err.print()` honors `should_display_error`). -/
def parser_worker_printed (previous_url : Url) (links : List Link) :
    List CrawlerError :=
  links.filterMap (fun link =>
    match parser_worker_handle_link previous_url link with
    | Except.ok _ => none
    | Except.error e => if e.should_display_error then some e else none)

/-! ## Tree listing (`crawler.rs`, `handle_command_list` / `print_children`) -/

/-- Outcome of a `print_children` traversal: the `panic!` on a URL missing
its tree entry, out of fuel (the source recurses without a bound; cycles
hit stack overflow), or success with the rendered lines. -/
inductive PCResult where
  | panicked
  | fuelOut
  | ok (lines : List String)
deriving DecidableEq, Repr

/-- A node's rendering: the full URL at the root level (empty
indentation), only the path below it. -/
def renderUrl (indentation : String) (u : Url) : String :=
  if indentation = String.mk [] then urlToString u else u.path

/-- `crawler.rs`: `print_children`, with explicit fuel for the recursion.
Children are classified (panicking if any lacks a tree entry), childed
nodes are rendered first, each followed by its subtree one indentation
level deeper, then the childless ones are joined on one line. -/
def print_children :
    Nat → List (Url × List Url) → String → List Url → PCResult
  | 0, _, _, _ => PCResult.fuelOut
  | Nat.succ fuel, url_parents, indentation, children =>
    if children.any (fun c => (lookupA url_parents c).isNone) then
      PCResult.panicked
    else
      let childed := children.filterMap (fun c =>
        match lookupA url_parents c with
        | some cs => if cs.isEmpty then none else some (c, cs)
        | none => none)
      let childless := children.filter (fun c =>
        match lookupA url_parents c with
        | some cs => cs.isEmpty
        | none => false)
      let folded := childed.foldl (fun acc p =>
        match acc with
        | PCResult.ok lines =>
          match print_children fuel url_parents
              (indentation ++ String.mk [' ']) p.2 with
          | PCResult.ok sub =>
            PCResult.ok
              (lines ++ (indentation ++ renderUrl indentation p.1) :: sub)
          | r => r
        | r => r) (PCResult.ok [])
      match folded with
      | PCResult.ok lines =>
        PCResult.ok (lines ++
          [indentation ++ String.intercalate (String.mk [' '])
            (childless.map (renderUrl indentation))])
      | r => r

/-- `Crawler::handle_command_list`: traverse from the registered domain
roots with empty indentation. -/
def handle_command_list (fuel : Nat) (s : CrawlerState) : PCResult :=
  print_children fuel s.url_parents (String.mk [])
    (s.base_urls.map Prod.fst)

/-! ## Theorems

Helper lemmas first, then the claims' theorems, counterexamples and
witnesses. -/

theorem strip_url_to_domain_idem (u : Url) :
    strip_url_to_domain (strip_url_to_domain u) = strip_url_to_domain u := by
  simp [strip_url_to_domain]

theorem getLast?_setPathL (p : List Char) (hp : p ≠ []) :
    (setPathL p).getLast? = p.getLast? := by
  unfold setPathL
  rw [if_neg hp]
  by_cases hh : p.head? = some '/'
  · rw [if_pos hh]
  · rw [if_neg hh]
    cases p with
    | nil => exact absurd rfl hp
    | cons a t => exact List.getLast?_cons_cons

theorem stripTrailingSlashL_idem (p : List Char)
    (h : ¬ (p.getLast? = some '/' ∧ p.dropLast.getLast? = some '/')) :
    stripTrailingSlashL (stripTrailingSlashL p) = stripTrailingSlashL p := by
  unfold stripTrailingSlashL
  by_cases h1 : p.getLast? = some '/'
  · rw [if_pos h1]
    have h2 : p.dropLast.getLast? ≠ some '/' := fun hc => h ⟨h1, hc⟩
    by_cases h3 : p.dropLast = []
    · simp [setPathL, h3]
    · rw [getLast?_setPathL p.dropLast h3, if_neg h2]
  · rw [if_neg h1, if_neg h1]

/-- C8 (corrected): claimed for every parseable URL, but a path ending in
`"//"` loses only one slash per application of
`strip_url_to_domain_and_path`, so normalizing twice differs from
normalizing once on such URLs. -/
theorem strip_and_path_not_idem_counterexample :
    strip_url_to_domain_and_path
        (strip_url_to_domain_and_path (Url.mk ("http") ("d") ("/a//") none none)) ≠
      strip_url_to_domain_and_path (Url.mk ("http") ("d") ("/a//") none none) := by
  decide

/-- C8 (amended): `strip_url_to_domain` is idempotent on every URL, and
`strip_url_to_domain_and_path` is idempotent on every URL whose path does
not end in two consecutive slashes. -/
theorem url_normalization_idem :
    (∀ u : Url,
      strip_url_to_domain (strip_url_to_domain u) = strip_url_to_domain u) ∧
    (∀ u : Url,
      ¬ (u.path.data.getLast? = some '/' ∧
         u.path.data.dropLast.getLast? = some '/') →
      strip_url_to_domain_and_path (strip_url_to_domain_and_path u) =
        strip_url_to_domain_and_path u) := by
  refine ⟨strip_url_to_domain_idem, fun u h => ?_⟩
  simp [strip_url_to_domain_and_path, stripTrailingSlashL_idem _ h]

/-- Witness for `url_normalization_idem` at a concrete URL. -/
theorem url_normalization_idem_witness :
    strip_url_to_domain_and_path
        (strip_url_to_domain_and_path (Url.mk ("http") ("d") ("/a/") none none)) =
      strip_url_to_domain_and_path (Url.mk ("http") ("d") ("/a/") none none) :=
  url_normalization_idem.2 (Url.mk ("http") ("d") ("/a/") none none) (by decide)

theorem runScan_eq_pickFrom (index max_index : Nat) (hn : max_index ≠ 0)
    (cs : List Char) :
    ∀ (s : ScanState) (k : Nat),
      runScan index max_index cs s k =
        some (pickFrom index max_index k (scanEvents cs s)) := by
  induction cs with
  | nil => intro s k; rfl
  | cons c cs ih =>
    intro s k
    rcases h : scanStep s c with ⟨s', ev⟩
    match ev with
    | some (some href) =>
      simp only [runScan, scanEvents, h, hn, if_neg]
      by_cases hk : k % max_index = index
      · simp [pickFrom, hk, ih]
      · simp [pickFrom, hk, ih]
    | some none => simp [runScan, scanEvents, h, ih]
    | none => simp [runScan, scanEvents, h, ih]

theorem runScan_zero (index : Nat) (cs : List Char) :
    ∀ (s : ScanState) (k : Nat),
      runScan index 0 cs s k =
        if scanEvents cs s = [] then some [] else none := by
  induction cs with
  | nil => intro s k; rfl
  | cons c cs ih =>
    intro s k
    rcases h : scanStep s c with ⟨s', ev⟩
    match ev with
    | some (some href) => simp [runScan, scanEvents, h]
    | some none => simp [runScan, scanEvents, h, ih]
    | none => simp [runScan, scanEvents, h, ih]

theorem pickFrom_eq_filter (index max_index : Nat) (l : List String) :
    ∀ k, pickFrom index max_index k l =
      ((List.enumFrom k l).filter (fun p => p.1 % max_index == index)).map
        Prod.snd := by
  induction l with
  | nil => intro k; rfl
  | cons h t ih =>
    intro k
    by_cases hk : k % max_index = index
    · have hb : (k % max_index == index) = true := by simp [hk]
      simp [pickFrom, hk, hb, List.enumFrom, List.filter, ih]
    · have hb : (k % max_index == index) = false := by simp [hk]
      simp [pickFrom, hk, hb, List.enumFrom, List.filter, ih]

/-- For `max_index ≠ 0`, collecting the iterator yields exactly the hrefs of
the claimed anchors, in order. -/
theorem find_anchors_eq_claimed (html : String) (index max_index : Nat)
    (hn : max_index ≠ 0) :
    find_anchors html index max_index =
      some ((claimedAnchors index max_index (hrefEvents html)).map
        Prod.snd) := by
  rw [find_anchors, runScan_eq_pickFrom index max_index hn, hrefEvents,
    claimedAnchors, pickFrom_eq_filter]

/-- C1 (counterexample): on `"<a>x</a><a href='h'>y</a>"` the code's
ordinal for the href-carrying anchor is 0 (the preceding closed href-less
anchor is not counted), so partition 1 of 2 claims nothing, while under the
claimed counting (all closed anchors counted) that anchor would have
ordinal 1 and be claimed by partition 1. -/
theorem anchor_counter_counterexample :
    find_anchors ("<a>x</a><a href='h'>y</a>") 1 2 = some [] ∧
    find_anchors_count_all ("<a>x</a><a href='h'>y</a>") 1 2 =
      some [String.mk ['h']] ∧
    find_anchors ("<a>x</a><a href='h'>y</a>") 1 2 ≠
      find_anchors_count_all ("<a>x</a><a href='h'>y</a>") 1 2 := by
  refine ⟨by decide, by decide, by decide⟩

/-- C1 (amended): the ordinal counter increments exactly once per fully
closed `<a>` element that carries an href; closed href-less anchors do not
advance it.  Hence, for `max_index ≠ 0`, partition `index` yields exactly
the hrefs whose position in the stream of href-carrying closed anchors is
congruent to `index` mod `max_index`. -/
theorem anchor_counter_counts_href_anchors (html : String)
    (index max_index : Nat) (hn : max_index ≠ 0) :
    find_anchors html index max_index =
      some (((List.enumFrom 0 (hrefEvents html)).filter
        (fun p => p.1 % max_index == index)).map Prod.snd) :=
  find_anchors_eq_claimed html index max_index hn

/-- Witness for `anchor_counter_counts_href_anchors` at a concrete page. -/
theorem anchor_counter_counts_href_anchors_witness :
    (2 : Nat) ≠ 0 ∧
    find_anchors ("<a>x</a><a href='h'>y</a>") 0 2 =
      some (((List.enumFrom 0 (hrefEvents ("<a>x</a><a href='h'>y</a>"))).filter
        (fun p => p.1 % 2 == 0)).map Prod.snd) :=
  ⟨by decide,
    anchor_counter_counts_href_anchors ("<a>x</a><a href='h'>y</a>") 0 2
      (by decide)⟩

/-- C9 (counterexample): with `max_index = 0`, collecting the iterator on
the empty page text silently returns an empty result instead of faulting —
the claimed "faults for every input text" is false. -/
theorem zero_partitions_counterexample :
    find_anchors (String.mk []) 0 0 = some [] := by
  decide

/-- C9 (amended): with `max_index = 0`, collecting the iterator faults (the
`%`-by-zero panic, modelled as `none`) if and only if the page text contains
at least one fully closed `<a>` element carrying an href; otherwise it
silently returns the empty result. -/
theorem zero_partitions_faults_iff (html : String) (index : Nat) :
    find_anchors html index 0 = none ↔ hrefEvents html ≠ [] := by
  rw [find_anchors, runScan_zero, hrefEvents]
  by_cases h : scanEvents html.data initScanState = []
  · simp [h]
  · simp [h]

theorem anchorsList_eq_claimed (html : String) (index max_index : Nat)
    (hn : max_index ≠ 0) :
    anchorsList html index max_index =
      (claimedAnchors index max_index (hrefEvents html)).map Prod.snd := by
  rw [anchorsList, find_anchors_eq_claimed html index max_index hn,
    Option.getD_some, claimedAnchors]

theorem claimed_bucket (n : Nat) (hn : 0 < n) (l : List String) :
    ∀ k, (∑ i ∈ Finset.range n,
        (↑((List.enumFrom k l).filter (fun p => p.1 % n == i)) :
          Multiset (Nat × String))) =
      ↑(List.enumFrom k l) := by
  induction l with
  | nil => intro k; simp
  | cons h t ih =>
    intro k
    have hsplit :
        ∀ i, ((List.enumFrom k (h :: t)).filter (fun p => p.1 % n == i) :
            Multiset (Nat × String)) =
          (if k % n = i then ({(k, h)} : Multiset (Nat × String)) else 0) +
            ↑((List.enumFrom (k + 1) t).filter (fun p => p.1 % n == i)) := by
      intro i
      simp only [List.enumFrom, List.filter_cons]
      by_cases hk : k % n = i
      · have hb : (k % n == i) = true := by simp [hk]
        rw [if_pos hk, hb, if_pos rfl, ← Multiset.cons_coe,
          ← Multiset.singleton_add]
      · have hb : (k % n == i) = false := by simp [hk]
        rw [if_neg hk, hb]
        simp
    rw [Finset.sum_congr rfl (fun i _ => hsplit i), Finset.sum_add_distrib,
      Finset.sum_ite_eq (Finset.range n) (k % n)
        (fun _ => ({(k, h)} : Multiset (Nat × String))),
      if_pos (Finset.mem_range.mpr (Nat.mod_lt _ hn)), ih (k + 1)]
    show ({(k, h)} : Multiset (Nat × String)) + ↑(List.enumFrom (k + 1) t) =
      ↑(List.enumFrom k (h :: t))
    rw [Multiset.singleton_add, Multiset.cons_coe]
    rfl

theorem map_multiset_finset_sum {α β ι : Type} (f : α → β) (s : Finset ι)
    (g : ι → Multiset α) :
    (∑ i ∈ s, g i).map f = ∑ i ∈ s, (g i).map f := by
  classical
  induction s using Finset.induction_on with
  | empty => simp
  | insert ha ih => simp_all [Finset.sum_insert, Multiset.map_add]

theorem claimed_zero_one (l : List String) :
    (claimedAnchors 0 1 l).map Prod.snd = l := by
  rw [claimedAnchors]
  have : ∀ p : Nat × String, (p.1 % 1 == 0) = true := fun p => by
    simp [Nat.mod_one]
  rw [List.filter_eq_self.mpr (fun p _ => this p)]
  exact List.enum_map_snd l

/-- C2 (confirmed): for every page text and partition count `n ≥ 1`, each
partition yields exactly its claimed anchors, the multiset union over the
`n` partitions of the collected hrefs equals the full single-partition
result, and two distinct partition indices never claim the same anchor. -/
theorem partition_complete_and_disjoint (html : String) (n : Nat)
    (hn : 1 ≤ n) :
    (∀ i, find_anchors html i n =
      some ((claimedAnchors i n (hrefEvents html)).map Prod.snd)) ∧
    (∑ i ∈ Finset.range n, (↑(anchorsList html i n) : Multiset String)) =
      (↑(anchorsList html 0 1) : Multiset String) ∧
    (∀ i j, i ≠ j → ∀ p, p ∈ claimedAnchors i n (hrefEvents html) →
      p ∉ claimedAnchors j n (hrefEvents html)) := by
  have hn' : n ≠ 0 := Nat.one_le_iff_ne_zero.mp hn
  refine ⟨fun i => find_anchors_eq_claimed html i n hn', ?_, ?_⟩
  · have hterm : ∀ i, (↑(anchorsList html i n) : Multiset String) =
        Multiset.map Prod.snd
          ((↑(claimedAnchors i n (hrefEvents html))) :
            Multiset (Nat × String)) :=
      fun i => by
        rw [anchorsList_eq_claimed html i n hn', ← Multiset.map_coe]
    have hms := map_multiset_finset_sum Prod.snd (Finset.range n)
      (fun i => ((↑(claimedAnchors i n (hrefEvents html))) :
        Multiset (Nat × String)))
    rw [Finset.sum_congr rfl (fun i _ => hterm i), ← hms]
    show Multiset.map Prod.snd
        (∑ i ∈ Finset.range n,
          (↑((List.enumFrom 0 (hrefEvents html)).filter
            (fun p => p.1 % n == i)) : Multiset (Nat × String))) =
      (↑(anchorsList html 0 1) : Multiset String)
    rw [claimed_bucket n (Nat.pos_of_ne_zero hn') (hrefEvents html) 0,
      Multiset.map_coe, anchorsList_eq_claimed html 0 1 one_ne_zero,
      claimed_zero_one]
    rw [show List.map Prod.snd (List.enumFrom 0 (hrefEvents html)) =
      hrefEvents html from List.enum_map_snd (hrefEvents html)]
  · intro i j hij p hpi hpj
    have hi := (List.mem_filter.mp hpi).2
    have hj := (List.mem_filter.mp hpj).2
    exact hij ((beq_iff_eq.mp hi).symm.trans (beq_iff_eq.mp hj))

/-- Witness for `partition_complete_and_disjoint` on a concrete page with
two anchors and two partitions. -/
theorem partition_complete_and_disjoint_witness :
    (1 : Nat) ≤ 2 ∧
    (∑ i ∈ Finset.range 2,
      (↑(anchorsList ("<a href='u'>1</a><a href='v'>2</a>") i 2) :
        Multiset String)) =
      (↑(anchorsList ("<a href='u'>1</a><a href='v'>2</a>") 0 1) :
        Multiset String) :=
  ⟨by decide,
    (partition_complete_and_disjoint ("<a href='u'>1</a><a href='v'>2</a>") 2
      (by decide)).2.1⟩

theorem lookupA_insertA_self {β : Type} (m : List (Url × β)) (k : Url)
    (v : β) : lookupA (insertA m k v) k = some v := by
  induction m with
  | nil => simp [insertA, lookupA, List.find?]
  | cons p t ih =>
    by_cases h : p.1 = k
    · simp [insertA, h, lookupA, List.find?]
    · have hb : (p.1 == k) = false := by simp [h]
      simp only [insertA, h, if_neg, reduceIte, lookupA, List.find?, hb]
      exact ih

theorem lookupA_insertA_other {β : Type} (m : List (Url × β)) (k k' : Url)
    (v : β) (hne : k' ≠ k) : lookupA (insertA m k v) k' = lookupA m k' := by
  have hkk : ¬ k = k' := fun hc => hne hc.symm
  have hb : (k == k') = false := by simp [hkk]
  induction m with
  | nil => simp [insertA, lookupA, List.find?, hb]
  | cons p t ih =>
    by_cases h : p.1 = k
    · have hb2 : (p.1 == k') = false := by
        rw [h]
        simp [hkk]
      simp [insertA, h, lookupA, List.find?, hb, hb2]
    · by_cases h2 : p.1 = k'
      · simp [insertA, h, lookupA, List.find?, h2, hne]
      · have hb2 : (p.1 == k') = false := by simp [h2]
        simp only [insertA, h, if_neg, reduceIte, lookupA, List.find?, hb2]
        exact ih

/-- C5 (confirmed): a fresh job's `Start()` with a successful fetch
performs the fetch and stamps the post-fetch time; a second `Start()`
within the one-minute stale window performs no fetch and changes nothing
(the cache hit returns immediately); a `Start()` at least one whole minute
after the stamp performs a second fetch. -/
theorem staleness_gate (t1 f1 t2 f2 t3 f3 : Int) (document : String)
    (r2 r3 : Option String)
    (h2 : numMinutes (t2 - f1) < URL_MAX_STALE_MINUTES)
    (h3 : ¬ numMinutes (t3 - f1) < URL_MAX_STALE_MINUTES) :
    url_worker_start (UrlWorkerState.mk none) t1 f1 (some document) =
      (UrlWorkerState.mk (some f1), true, true) ∧
    url_worker_start (UrlWorkerState.mk (some f1)) t2 f2 r2 =
      (UrlWorkerState.mk (some f1), false, true) ∧
    (url_worker_start (UrlWorkerState.mk (some f1)) t3 f3 r3).2.1 = true := by
  refine ⟨rfl, ?_, ?_⟩
  · simp [url_worker_start, h2]
  · cases r3 with
    | none => simp [url_worker_start, h3, url_worker_fetch]
    | some doc => simp [url_worker_start, h3, url_worker_fetch]

/-- Witness for `staleness_gate`: stamp at second 0, second call at second
59 (0 whole minutes: cache hit), third call at second 60 (1 whole minute:
fetch again). -/
theorem staleness_gate_witness :
    numMinutes (59 - 0) < URL_MAX_STALE_MINUTES ∧
    ¬ numMinutes (60 - 0) < URL_MAX_STALE_MINUTES ∧
    (url_worker_start (UrlWorkerState.mk none) 0 0 (some (String.mk [])) =
      (UrlWorkerState.mk (some 0), true, true) ∧
    url_worker_start (UrlWorkerState.mk (some 0)) 59 59 none =
      (UrlWorkerState.mk (some 0), false, true) ∧
    (url_worker_start (UrlWorkerState.mk (some 0)) 60 60 none).2.1 = true) :=
  ⟨by decide, by decide,
    staleness_gate 0 0 59 59 60 60 (String.mk []) none none
      (by decide) (by decide)⟩

/-- C10 (confirmed): `handle_command_stop` normalizes the parsed URL to its
domain-only form, so any URL with the same scheme and host is treated
identically; it returns `Ok`, never touches the worker registry or the
tree, is a no-op when the domain is unregistered, and sets the registered
domain's crawling flag to `false` otherwise. -/
theorem stop_deactivates_whole_domain (s : CrawlerState) (u : Url) :
    (handle_command_stop s u).2 = true ∧
    (handle_command_stop s u).1.url_workers = s.url_workers ∧
    (handle_command_stop s u).1.url_parents = s.url_parents ∧
    (∀ p q f, handle_command_stop s (Url.mk u.scheme u.host p q f) =
      handle_command_stop s u) ∧
    (lookupA s.base_urls (strip_url_to_domain u) = none →
      (handle_command_stop s u).1 = s) ∧
    (∀ b, lookupA s.base_urls (strip_url_to_domain u) = some b →
      lookupA (handle_command_stop s u).1.base_urls
        (strip_url_to_domain u) = some false) := by
  have hstrip : ∀ v : Url, strip_url_to_domain v = strip_url_to_domain u →
      handle_command_stop s v =
        (base_url_stop_crawling s (strip_url_to_domain u), true) := by
    intro v hv
    rw [handle_command_stop]
    rw [show base_url_stop_crawling s (strip_url_to_domain v) =
        base_url_stop_crawling s (strip_url_to_domain u) from by rw [hv]]
  have hmain : handle_command_stop s u =
      (base_url_stop_crawling s (strip_url_to_domain u), true) :=
    hstrip u rfl
  have hsame : ∀ p q f,
      strip_url_to_domain (Url.mk u.scheme u.host p q f) =
        strip_url_to_domain u := by
    intro p q f
    rw [strip_url_to_domain, strip_url_to_domain]
  refine ⟨by rw [hmain], ?_, ?_, ?_, ?_, ?_⟩
  · rw [hmain, base_url_stop_crawling]
    by_cases h : (lookupA s.base_urls
        (strip_url_to_domain (strip_url_to_domain u))).isSome = false
    · rw [if_pos h]
    · rw [if_neg h]
  · rw [hmain, base_url_stop_crawling]
    by_cases h : (lookupA s.base_urls
        (strip_url_to_domain (strip_url_to_domain u))).isSome = false
    · rw [if_pos h]
    · rw [if_neg h]
  · intro p q f
    rw [hstrip (Url.mk u.scheme u.host p q f) (hsame p q f), hmain]
  · intro hnone
    rw [hmain, base_url_stop_crawling,
      if_pos (by rw [strip_url_to_domain_idem, hnone]; rfl)]
  · intro b hsome
    rw [hmain, base_url_stop_crawling, strip_url_to_domain_idem]
    rw [if_neg (by rw [hsome]; simp)]
    exact lookupA_insertA_self s.base_urls (strip_url_to_domain u) false

/-- Witness for `stop_deactivates_whole_domain`: stopping via a deep URL
with query and fragment deactivates the registered domain root. -/
theorem stop_deactivates_whole_domain_witness :
    lookupA
      (handle_command_stop
          (CrawlerState.mk
            [(strip_url_to_domain
                (Url.mk ("http") ("d") ("/a/b") (some ("q")) (some ("f"))),
              true)]
            [] [])
          (Url.mk ("http") ("d") ("/a/b") (some ("q")) (some ("f")))).1.base_urls
      (strip_url_to_domain
        (Url.mk ("http") ("d") ("/a/b") (some ("q")) (some ("f")))) =
      some false :=
  (stop_deactivates_whole_domain
    (CrawlerState.mk
      [(strip_url_to_domain
          (Url.mk ("http") ("d") ("/a/b") (some ("q")) (some ("f"))),
        true)]
      [] [])
    (Url.mk ("http") ("d") ("/a/b") (some ("q")) (some ("f")))).2.2.2.2.2
    true (by decide)

/-- C3 (code bug, evaluated at the failing input): with the domain
unregistered (hence not crawling), `start_job` returns `Ok` and performs no
action — no fetch, no worker creation, no tree registration — but the
`DomainStopped` error IS printed to the operator's console (the source calls
`print_error` directly), even though `should_display_error` is `false` for
it: the code bypasses its own display policy, which per the spec should
suppress this condition. -/
theorem domain_stopped_gate_evaluation :
    start_job crawlerNew none (Url.mk ("http") ("d") ("/a") none none)
        0 0 none =
      some (crawlerNew, Except.ok (),
        [CrawlerError.BaseUrlHasStoppedCrawling ("/a") ("http://d/")],
        false) ∧
    CrawlerError.should_display_error
        (CrawlerError.BaseUrlHasStoppedCrawling ("/a") ("http://d/")) =
      false := by
  refine ⟨by decide, rfl⟩

/-- C4 (counterexample): with an empty tree (domain root unregistered),
registering `http://d/a` with no parent fails with the `BaseUrlNotFound`
error instead of creating the root's tree entry as claimed. -/
theorem create_worker_missing_root_counterexample :
    create_worker crawlerNew none (Url.mk ("http") ("d") ("/a") none none) =
      Except.error (CrawlerError.BaseUrlNotFound ("http://d/a")) := by
  decide

/-- C4 (amended): registration in `create_worker`.  If `parent` is `Some`,
the parent must already be a tree key, else the call fails with the
`ParentNotFound` error and if it is a key the URL is added to its child
set; if `parent` is `None` and the URL is not the domain-only URL, the URL
is added under the domain-only root only when the root already has a tree
entry — an absent root makes the call fail with the `BaseUrlNotFound`
(DomainNotFound) error rather than being created (root entries are created
by Start-command handling, `base_url_start_crawling`).  On every success
the worker is registered. -/
theorem create_worker_registration (s : CrawlerState) (url : Url) :
    (∀ p, lookupA s.url_parents p = none →
      create_worker s (some p) url =
        Except.error (CrawlerError.ParentUrlWorkerNotFound (urlToString p))) ∧
    (∀ p children, lookupA s.url_parents p = some children →
      ∃ s', create_worker s (some p) url = Except.ok s' ∧
        lookupA s'.url_parents p = some (insertOnce children url) ∧
        lookupA s'.url_workers url = some (UrlWorkerState.mk none)) ∧
    (urlToString url ≠ urlToString (strip_url_to_domain url) →
      lookupA s.url_parents (strip_url_to_domain url) = none →
      create_worker s none url =
        Except.error (CrawlerError.BaseUrlNotFound (urlToString url))) ∧
    (∀ children, urlToString url ≠ urlToString (strip_url_to_domain url) →
      lookupA s.url_parents (strip_url_to_domain url) = some children →
      ∃ s', create_worker s none url = Except.ok s' ∧
        lookupA s'.url_parents (strip_url_to_domain url) =
          some (insertOnce children url) ∧
        lookupA s'.url_workers url = some (UrlWorkerState.mk none)) := by
  have hworkers : ∀ s1 : CrawlerState,
      lookupA (insertA s1.url_workers url (UrlWorkerState.mk none)) url =
        some (UrlWorkerState.mk none) :=
    fun s1 => lookupA_insertA_self s1.url_workers url (UrlWorkerState.mk none)
  have htree : ∀ (t : List (Url × List Url)) (k : Url) (children : List Url),
      lookupA (insertA t k (insertOnce children url)) k =
        some (insertOnce children url) :=
    fun t k children => lookupA_insertA_self t k (insertOnce children url)
  refine ⟨?_, ?_, ?_, ?_⟩
  · intro p hp
    simp only [create_worker, hp]
  · intro p children hp
    simp only [create_worker, hp]
    set s1 : CrawlerState :=
      { s with url_parents := insertA s.url_parents p (insertOnce children url) }
    set s2 : CrawlerState :=
      { s1 with url_workers := insertA s1.url_workers url (UrlWorkerState.mk none) }
    have hlook : lookupA s2.url_parents p = some (insertOnce children url) :=
      htree s.url_parents p children
    by_cases hu : (lookupA s2.url_parents url).isSome
    · refine ⟨s2, by rw [if_pos hu], hlook, hworkers s1⟩
    · refine ⟨{ s2 with url_parents := insertA s2.url_parents url [] },
        by rw [if_neg hu], ?_, hworkers s1⟩
      have hku : p ≠ url := by
        intro hc
        rw [← hc] at hu
        rw [hlook] at hu
        exact hu rfl
      show lookupA (insertA s2.url_parents url []) p = some (insertOnce children url)
      rw [lookupA_insertA_other s2.url_parents url p [] hku]
      exact hlook
  · intro hne hroot
    simp only [create_worker, if_pos hne, hroot]
  · intro children hne hroot
    simp only [create_worker, if_pos hne, hroot]
    set b := strip_url_to_domain url
    set s1 : CrawlerState :=
      { s with url_parents := insertA s.url_parents b (insertOnce children url) }
    set s2 : CrawlerState :=
      { s1 with url_workers := insertA s1.url_workers url (UrlWorkerState.mk none) }
    have hlook : lookupA s2.url_parents b = some (insertOnce children url) :=
      htree s.url_parents b children
    by_cases hu : (lookupA s2.url_parents url).isSome
    · refine ⟨s2, by rw [if_pos hu], hlook, hworkers s1⟩
    · refine ⟨{ s2 with url_parents := insertA s2.url_parents url [] },
        by rw [if_neg hu], ?_, hworkers s1⟩
      have hku : b ≠ url := by
        intro hc
        rw [← hc] at hu
        rw [hlook] at hu
        exact hu rfl
      show lookupA (insertA s2.url_parents url []) b = some (insertOnce children url)
      rw [lookupA_insertA_other s2.url_parents url b [] hku]
      exact hlook

/-- Witness for `create_worker_registration`: with the domain root
registered, a pathful URL is registered under it and its worker created. -/
theorem create_worker_registration_witness :
    ∃ s', create_worker
        (CrawlerState.mk [] []
          [(strip_url_to_domain (Url.mk ("http") ("d") ("/a") none none), [])])
        none (Url.mk ("http") ("d") ("/a") none none) = Except.ok s' ∧
      lookupA s'.url_parents
          (strip_url_to_domain (Url.mk ("http") ("d") ("/a") none none)) =
        some (insertOnce [] (Url.mk ("http") ("d") ("/a") none none)) ∧
      lookupA s'.url_workers (Url.mk ("http") ("d") ("/a") none none) =
        some (UrlWorkerState.mk none) :=
  (create_worker_registration
    (CrawlerState.mk [] []
      [(strip_url_to_domain (Url.mk ("http") ("d") ("/a") none none), [])])
    (Url.mk ("http") ("d") ("/a") none none)).2.2.2
    [] (by decide) (by decide)

/-- C6 (confirmed): a link that resolves to a URL whose scheme or host
differs from the page's URL is dropped: `parser_worker_handle_link`
returns the cross-domain error, the error's display policy suppresses it
(nothing reaches the operator), no `start_job` is spawned for it (hence no
`CrawlJob` and no tree entry are ever created for the foreign URL), while
the surrounding links of the same partition are processed unchanged. -/
theorem cross_domain_link_dropped (previous_url : Url) (link : Link)
    (u : Url) (hres : linkResolved link = some u)
    (hmismatch : u.scheme ≠ previous_url.scheme ∨ u.host ≠ previous_url.host) :
    parser_worker_handle_link previous_url link =
      Except.error (CrawlerError.LinkUrlDoesNotMatchBaseUrl
        (urlToString previous_url) (urlToString u)) ∧
    CrawlerError.should_display_error
      (CrawlerError.LinkUrlDoesNotMatchBaseUrl
        (urlToString previous_url) (urlToString u)) = false ∧
    (∀ before after,
      parser_worker_spawns previous_url (before ++ link :: after) =
        parser_worker_spawns previous_url before ++
          parser_worker_spawns previous_url after) ∧
    (∀ before after,
      parser_worker_printed previous_url (before ++ link :: after) =
        parser_worker_printed previous_url before ++
          parser_worker_printed previous_url after) := by
  have hbase : have_same_base previous_url u = false := by
    rcases hmismatch with h | h
    · have hne2 : ¬ previous_url.scheme = u.scheme := fun hc => h (Eq.symm hc)
      have hb2 : (previous_url.scheme == u.scheme) = false :=
        beq_eq_false_iff_ne.mpr hne2
      simp [have_same_base, hb2]
    · have hne2 : ¬ previous_url.host = u.host := fun hc => h (Eq.symm hc)
      have hb2 : (previous_url.host == u.host) = false :=
        beq_eq_false_iff_ne.mpr hne2
      simp [have_same_base, hb2]
  have hlink : parser_worker_handle_link previous_url link =
      Except.error (CrawlerError.LinkUrlDoesNotMatchBaseUrl
        (urlToString previous_url) (urlToString u)) := by
    match hp : link.parsed with
    | ParseOutcome.ok link_url =>
      have heq : link_url = u := by
        simp only [linkResolved, hp] at hres
        exact Option.some_injective _ hres
      rw [heq] at hp
      simp [parser_worker_handle_link, hp, hbase]
    | ParseOutcome.errRelative =>
      simp only [linkResolved, hp] at hres
      simp [parser_worker_handle_link, hp, hres, hbase]
    | ParseOutcome.errOther =>
      simp only [linkResolved, hp] at hres
      cases hres
  refine ⟨hlink, rfl, ?_, ?_⟩
  · intro before after
    rw [parser_worker_spawns, List.filterMap_append, List.filterMap_cons,
      hlink]
    rfl
  · intro before after
    rw [parser_worker_printed, List.filterMap_append, List.filterMap_cons,
      hlink]
    rfl

/-- Witness for `cross_domain_link_dropped`: a link from
`http://site.com/p` to `http://other.com/q`. -/
theorem cross_domain_link_dropped_witness :
    parser_worker_handle_link
        (Url.mk ("http") ("site.com") ("/p") none none)
        (Link.mk ("http://other.com/q")
          (ParseOutcome.ok (Url.mk ("http") ("other.com") ("/q") none none))
          none) =
      Except.error (CrawlerError.LinkUrlDoesNotMatchBaseUrl
        (urlToString (Url.mk ("http") ("site.com") ("/p") none none))
        (urlToString (Url.mk ("http") ("other.com") ("/q") none none))) :=
  (cross_domain_link_dropped
    (Url.mk ("http") ("site.com") ("/p") none none)
    (Link.mk ("http://other.com/q")
      (ParseOutcome.ok (Url.mk ("http") ("other.com") ("/q") none none))
      none)
    (Url.mk ("http") ("other.com") ("/q") none none)
    (by decide) (Or.inr (by decide))).1

theorem print_children_no_panic (url_parents : List (Url × List Url))
    (hclosed : ∀ k cs, lookupA url_parents k = some cs →
      ∀ c ∈ cs, (lookupA url_parents c).isSome) :
    ∀ (fuel : Nat) (children : List Url) (indentation : String),
      (∀ c ∈ children, (lookupA url_parents c).isSome) →
      print_children fuel url_parents indentation children ≠
        PCResult.panicked := by
  intro fuel
  induction fuel with
  | zero => intro children indentation _ hc; cases hc
  | succ fuel ih =>
    intro children indentation hroots
    rw [print_children]
    have hany : (children.any (fun c => (lookupA url_parents c).isNone)) =
        false := by
      rw [List.any_eq_false]
      intro c hc
      have := hroots c hc
      simp only [Option.isNone_iff_eq_none]
      intro hn
      rw [hn] at this
      cases this
    rw [hany]
    simp only [Bool.false_eq_true, if_neg, reduceIte]
    have hfold : ∀ (l : List (Url × List Url)) (acc : PCResult),
        acc ≠ PCResult.panicked →
        (∀ p ∈ l, ∃ cs, lookupA url_parents p.1 = some cs ∧ p.2 = cs) →
        l.foldl (fun acc p =>
          match acc with
          | PCResult.ok lines =>
            match print_children fuel url_parents
                (indentation ++ String.mk [' ']) p.2 with
            | PCResult.ok sub =>
              PCResult.ok (lines ++
                (indentation ++ renderUrl indentation p.1) :: sub)
            | r => r
          | r => r) acc ≠ PCResult.panicked := by
      intro l
      induction l with
      | nil => intro acc hacc _; exact hacc
      | cons p t iht =>
        intro acc hacc hmem
        rw [List.foldl_cons]
        refine iht _ ?_ (fun q hq => hmem q (List.mem_cons_of_mem p hq))
        rcases hmem p (List.mem_cons_self p t) with ⟨cs, hcs, hp2⟩
        have hsub : print_children fuel url_parents
            (indentation ++ String.mk [' ']) p.2 ≠ PCResult.panicked := by
          rw [hp2]
          exact ih cs (indentation ++ String.mk [' '])
            (hclosed p.1 cs hcs)
        match hacc2 : acc with
        | PCResult.ok lines =>
          match hpc : print_children fuel url_parents
              (indentation ++ String.mk [' ']) p.2 with
          | PCResult.ok sub => intro hc; cases hc
          | PCResult.fuelOut => intro hc; cases hc
          | PCResult.panicked => exact absurd hpc hsub
        | PCResult.fuelOut => intro hc; cases hc
        | PCResult.panicked => exact absurd rfl hacc
    have hmem : ∀ p ∈ children.filterMap (fun c =>
        match lookupA url_parents c with
        | some cs => if cs.isEmpty then none else some (c, cs)
        | none => none),
        ∃ cs, lookupA url_parents p.1 = some cs ∧ p.2 = cs := by
      intro p hp
      rcases List.mem_filterMap.mp hp with ⟨c, _, hc⟩
      match hl : lookupA url_parents c with
      | some cs =>
        simp only [hl] at hc
        by_cases he : cs.isEmpty
        · rw [if_pos he] at hc; cases hc
        · rw [if_neg he] at hc
          cases hc
          exact ⟨cs, hl, rfl⟩
      | none =>
        simp only [hl] at hc
        cases hc
    set fr := (children.filterMap (fun c =>
        match lookupA url_parents c with
        | some cs => if cs.isEmpty then none else some (c, cs)
        | none => none)).foldl (fun acc p =>
          match acc with
          | PCResult.ok lines =>
            match print_children fuel url_parents
                (indentation ++ String.mk [' ']) p.2 with
            | PCResult.ok sub =>
              PCResult.ok (lines ++
                (indentation ++ renderUrl indentation p.1) :: sub)
            | r => r
          | r => r) (PCResult.ok []) with hfr
    have hne := hfold _ (PCResult.ok [])
      (fun hc => PCResult.noConfusion hc) hmem
    rw [← hfr] at hne
    clear_value fr
    revert hne
    cases fr with
    | ok lines => intro hne hc; cases hc
    | fuelOut => intro hne hc; cases hc
    | panicked => intro hne; exact absurd rfl hne

theorem print_children_panics (url_parents : List (Url × List Url))
    (fuel : Nat) (indentation : String) (children : List Url) (c : Url)
    (hc : c ∈ children) (hmiss : lookupA url_parents c = none)
    (hfuel : fuel ≠ 0) :
    print_children fuel url_parents indentation children =
      PCResult.panicked := by
  match fuel with
  | 0 => exact absurd rfl hfuel
  | Nat.succ fuel =>
    rw [print_children]
    have hany : (children.any (fun c => (lookupA url_parents c).isNone)) =
        true :=
      List.any_eq_true.mpr ⟨c, hc, by rw [hmiss]; rfl⟩
    rw [hany]
    rfl

/-- C7 (counterexample): a tree whose invariant is violated in a part not
reachable from any registered domain root — `http://d/x` appears in the
child set of `http://d/` but has no tree entry, and no domain is registered
— makes `handle_command_list` succeed (render the empty root line) rather
than fail with the TreeCorrupt panic. -/
theorem list_tree_corrupt_counterexample :
    lookupA
        (CrawlerState.mk [] []
          [(Url.mk ("http") ("d") ("/") none none,
            [Url.mk ("http") ("d") ("/x") none none])]).url_parents
        (Url.mk ("http") ("d") ("/x") none none) = none ∧
    handle_command_list 2
        (CrawlerState.mk [] []
          [(Url.mk ("http") ("d") ("/") none none,
            [Url.mk ("http") ("d") ("/x") none none])]) =
      PCResult.ok [String.mk []] := by
  refine ⟨by decide, by decide⟩

theorem lookupA_eq_some_mem {β : Type} (m : List (Url × β)) (k : Url)
    (v : β) (h : lookupA m k = some v) : (k, v) ∈ m := by
  rw [lookupA] at h
  cases hfind : m.find? (fun p => p.1 == k) with
  | none => rw [hfind] at h; cases h
  | some pr =>
    rw [hfind] at h
    have hmem := List.mem_of_find?_eq_some hfind
    have hkey : pr.1 = k := beq_iff_eq.mp (List.find?_eq_some.mp hfind).1
    have hv : pr.2 = v := by
      simp only [Option.map_some'] at h
      exact Option.some_injective _ h
    have : pr = (k, v) := Prod.ext hkey hv
    rw [← this]
    exact hmem

/-- C7 (amended): the List traversal panics (the TreeCorrupt condition)
exactly when it reaches a URL with no tree entry, starting from the
registered domain roots: if every registered root has an entry and every
child of every tree entry has an entry, no fuel bound makes it panic; if
any registered domain root lacks a tree entry it panics immediately; a
violation unreachable from the roots goes undetected (see the
counterexample). -/
theorem list_tree_corrupt_detection :
    (∀ (s : CrawlerState) (fuel : Nat),
      (∀ p ∈ s.base_urls, (lookupA s.url_parents p.1).isSome) →
      (∀ e ∈ s.url_parents, ∀ c ∈ e.2, (lookupA s.url_parents c).isSome) →
      handle_command_list fuel s ≠ PCResult.panicked) ∧
    (∀ (s : CrawlerState) (fuel : Nat) (u : Url) (b : Bool),
      (u, b) ∈ s.base_urls → lookupA s.url_parents u = none → fuel ≠ 0 →
      handle_command_list fuel s = PCResult.panicked) := by
  constructor
  · intro s fuel hroots hclosed
    rw [handle_command_list]
    refine print_children_no_panic s.url_parents
      (fun k cs hk c hc =>
        hclosed (k, cs) (lookupA_eq_some_mem s.url_parents k cs hk) c hc)
      fuel _ _ ?_
    intro c hcmem
    rcases List.mem_map.mp hcmem with ⟨p, hp, hpc⟩
    rw [← hpc]
    exact hroots p hp
  · intro s fuel u b hmem hmiss hfuel
    rw [handle_command_list]
    exact print_children_panics s.url_parents fuel (String.mk [])
      (s.base_urls.map Prod.fst) u
      (List.mem_map.mpr ⟨(u, b), hmem, rfl⟩) hmiss hfuel

/-- Witness for `list_tree_corrupt_detection` on a one-domain registry
whose root is registered: List does not hit the TreeCorrupt panic. -/
theorem list_tree_corrupt_detection_witness :
    handle_command_list 1
        (CrawlerState.mk [(Url.mk ("http") ("d") ("/") none none, true)] []
          [(Url.mk ("http") ("d") ("/") none none, [])]) ≠
      PCResult.panicked :=
  list_tree_corrupt_detection.1
    (CrawlerState.mk [(Url.mk ("http") ("d") ("/") none none, true)] []
      [(Url.mk ("http") ("d") ("/") none none, [])]) 1
    (by decide) (by decide)
